import Mathlib

/-!
Shallow embedding of `rug-binserial` (`src/lib.rs`): a serde wrapper around
`rug::Integer` that serializes an arbitrary-precision integer as the sequence
of base-256 digits of its magnitude, least-significant first, and
deserializes by reading sequence elements until exhaustion and rebuilding the
value with `rug::Integer::from_digits`.

The external type `rug::Integer` is modelled as `Int`; its two digit
primitives `to_digits::<u8>(Order::Lsf)` and `from_digits(.., Order::Lsf)`
are modelled from their documented behaviour (minimal little-endian base-256
digit string of the magnitude, and its non-negative value). The serde
serializer and `SeqAccess` source are modelled as explicit protocol
abstractions so that error propagation and the order of protocol events are
visible.
-/

namespace RugBinserial

/-- Wrapper type for rug integer: `pub struct Integer(rug::Integer)`
(src/lib.rs line 9), with `rug::Integer` modelled as `Int`. -/
structure Integer where
  val : Int
deriving DecidableEq

/-- Rust `impl From<rug::Integer> for Integer` (src/lib.rs lines 44-48). -/
def Integer.fromRug (i : Int) : Integer := ⟨i⟩

/-- Rust `impl From<Integer> for rug::Integer` (src/lib.rs lines 50-54). -/
def Integer.intoRug (i : Integer) : Int := i.val

/-- Rust `impl AsRef<rug::Integer> for Integer` (src/lib.rs lines 56-60). -/
def Integer.as_ref (i : Integer) : Int := i.val

/-- Implementation helper: fuel-indexed little-endian base-256 digit extraction, written
structurally recursively on the fuel so that it evaluates inside the kernel;
with fuel ≥ n it computes the digits of `n`. -/
def natToDigitsAux : Nat → Nat → List Nat
  | _, 0 => []
  | 0, _ + 1 => []
  | fuel + 1, n + 1 => ((n + 1) % 256) :: natToDigitsAux fuel ((n + 1) / 256)

/-- Little-endian base-256 digits of a natural number, minimal: no high-order
zero digit, and `0` yields the empty list. -/
def natToDigitsLsf (n : Nat) : List Nat := natToDigitsAux n n

/-- Model of `rug::Integer::to_digits::<u8>(Order::Lsf)` (used at src/lib.rs line 73),
modelled from the rug documentation: the little-endian base-256 digits of the
magnitude of the value; the sign is ignored and `0` yields no digits. -/
def to_digits (v : Int) : List Nat := natToDigitsLsf v.natAbs

/-- Value of a little-endian base-256 digit list. -/
def natFromDigitsLsf (ds : List Nat) : Nat :=
  ds.foldr (fun d acc => d + 256 * acc) 0

/-- Model of `rug::Integer::from_digits(&digits, Order::Lsf)` (src/lib.rs lines
28-31), modelled from the rug documentation: the non-negative integer whose
little-endian base-256 digits are `ds`. -/
def from_digits (ds : List Nat) : Int := (natFromDigitsLsf ds : Int)

/-- One event of the serde sequence-serialization protocol, as received by a
serializer from `Serialize for Integer`. -/
inductive SerEvent where
  | beginSeq (len : Option Nat)
  | element (d : Nat)
  | endSeq
deriving DecidableEq

/-- The part of the serde `Serializer` / `SerializeSeq` interface used by
`Serialize for Integer`: each operation may fail with a sink error `ε` and
otherwise returns the updated sink state. -/
structure Serializer (σ ε : Type) where
  serialize_seq : σ → Option Nat → Except ε σ
  serialize_element : σ → Nat → Except ε σ
  seq_end : σ → Except ε σ

/-- Rust `impl Serialize for Integer` (src/lib.rs lines 68-80): export the digits
of the wrapped value, begin a sequence whose known length is the digit count,
write each digit as one element in order, close the sequence; every sink
error is propagated unchanged by `?`. -/
def Integer.serialize {σ ε : Type} (self : Integer) (sink : Serializer σ ε)
    (s0 : σ) : Except ε σ := do
  let digits := to_digits self.val
  let s1 ← sink.serialize_seq s0 (some digits.length)
  let s2 ← digits.foldlM (fun s e => sink.serialize_element s e) s1
  sink.seq_end s2

/-- One answer of a serde `SeqAccess` source to a `next_element` request: an
element (`Ok(Some(d))`), the exhaustion signal (`Ok(None)`), or a source
error (`Err(e)`). -/
inductive ReadStep (ε : Type) where
  | elem (d : Nat)
  | exhausted
  | fail (e : ε)
deriving DecidableEq

/-- A serde `SeqAccess` source: the size hint it advertises and the finite
trace of answers it gives to successive `next_element` requests (after this
trace the source only reports exhaustion). -/
structure SeqAccess (ε : Type) where
  size_hint : Option Nat
  steps : List (ReadStep ε)

/-- The `while let Some(digit) = seq.next_element()?` loop of `visit_seq`
(src/lib.rs lines 25-27): push elements in arrival order, stop at the first
exhaustion signal, and surface the first source error unchanged. -/
def visitSeqLoop {ε : Type} : List (ReadStep ε) → List Nat → Except ε (List Nat)
  | [], acc => .ok acc
  | .elem d :: rest, acc => visitSeqLoop rest (acc ++ [d])
  | .exhausted :: _, acc => .ok acc
  | .fail e :: _, _ => .error e

/-- Rust `IVisitor::visit_seq` (src/lib.rs lines 20-32): allocate
`Vec::with_capacity(seq.size_hint().unwrap_or(64))` — the hint fixes only the
initial capacity, never the contents, so the vector starts empty either way —
then read elements until the source reports exhaustion and build the wrapper
with `from_digits`. -/
def visit_seq {ε : Type} (seq : SeqAccess ε) : Except ε Integer :=
  let _capacity := seq.size_hint.getD 64
  match visitSeqLoop seq.steps [] with
  | .ok digits => .ok ⟨from_digits digits⟩
  | .error e => .error e

/-- Event-recording sink: a serializer that never fails and appends each
event it receives, in order. -/
def traceSerializer (ε : Type) : Serializer (List SerEvent) ε where
  serialize_seq := fun s len => .ok (s ++ [.beginSeq len])
  serialize_element := fun s d => .ok (s ++ [.element d])
  seq_end := fun s => .ok (s ++ [.endSeq])

/-- Encoding as seen by a format: the full event trace `Serialize for Integer` emits into a sink.
The trace sink never fails, so the error layer (`Empty`) is eliminated. -/
def Encode (w : Integer) : List SerEvent :=
  match w.serialize (traceSerializer Empty) [] with
  | .ok evs => evs
  | .error e => e.elim

/-- The digit carried by an element event, if any. -/
def digitOfEvent : SerEvent → Option Nat
  | .element d => some d
  | _ => none

/-- A faithful transport of an encoded sequence back to the decoder: the
format hands the advertised length to `SeqAccess` as the size hint and
replays the recorded elements in order, then signals exhaustion. -/
def eventsToAccess (evs : List SerEvent) : SeqAccess Empty where
  size_hint :=
    match evs with
    | .beginSeq len :: _ => len
    | _ => none
  steps := (evs.filterMap digitOfEvent).map .elem ++ [.exhausted]

/-- Round trip `Decode ∘ Encode`: serialize the wrapper, transport the sequence, and
deserialize it (`Deserialize for Integer`, src/lib.rs lines 35-42, which is
exactly `deserializer.deserialize_seq(IVisitor())`, i.e. `visit_seq`). -/
def roundTrip (w : Integer) : Except Empty Integer :=
  visit_seq (eventsToAccess (Encode w))

/-- A sink whose very first operation fails with a fixed error, used to
observe error propagation on the encode path. -/
def failSink : Serializer Unit Nat where
  serialize_seq := fun _ _ => .error 7
  serialize_element := fun _ _ => .error 7
  seq_end := fun _ => .error 7

/-- A sink that accepts the sequence header but fails on every element. -/
def elemFailSink : Serializer Unit Nat where
  serialize_seq := fun _ _ => .ok ()
  serialize_element := fun _ _ => .error 3
  seq_end := fun _ => .ok ()

/-- A sink that fails only when the sequence is closed. -/
def endFailSink : Serializer Unit Nat where
  serialize_seq := fun _ _ => .ok ()
  serialize_element := fun _ _ => .ok ()
  seq_end := fun _ => .error 11

/-! ### Supporting lemmas -/

/-- Bind on a successful `Except` applies the continuation. -/
theorem exceptBind_ok {ε α β : Type} (a : α) (f : α → Except ε β) :
    (Except.ok a : Except ε α) >>= f = f a := rfl

/-- Bind on a failed `Except` keeps the error. -/
theorem exceptBind_error {ε α β : Type} (e : ε) (f : α → Except ε β) :
    (Except.error e : Except ε α) >>= f = Except.error e := rfl

/-- Lifting `pure` of the `Except` monad is `Except.ok`. -/
theorem exceptPure_eq_ok {ε α : Type} (a : α) :
    (pure a : Except ε α) = Except.ok a := rfl

/-- The fuel-indexed digit extraction agrees with `Nat.digits 256` whenever
the fuel dominates the input. -/
theorem natToDigitsAux_eq_digits :
    ∀ (fuel n : Nat), n ≤ fuel → natToDigitsAux fuel n = Nat.digits 256 n := by
  intro fuel
  induction fuel with
  | zero =>
    intro n hn
    interval_cases n
    simp [natToDigitsAux]
  | succ fuel ih =>
    intro n hn
    match n with
    | 0 => simp [natToDigitsAux]
    | m + 1 =>
      have hdiv : (m + 1) / 256 ≤ fuel :=
        Nat.le_of_lt_succ (Nat.lt_of_lt_of_le
          (Nat.div_lt_self (Nat.succ_pos m) (by norm_num)) hn)
      rw [natToDigitsAux, ih _ hdiv,
        Nat.digits_def' (show (1 : Nat) < 256 by norm_num) (Nat.succ_pos m)]

/-- Agreement: `natToDigitsLsf` is `Nat.digits` in base 256. -/
theorem natToDigitsLsf_eq_digits (n : Nat) :
    natToDigitsLsf n = Nat.digits 256 n :=
  natToDigitsAux_eq_digits n n (Nat.le_refl n)

/-- Agreement: `natFromDigitsLsf` is `Nat.ofDigits` in base 256. -/
theorem natFromDigitsLsf_eq_ofDigits (ds : List Nat) :
    natFromDigitsLsf ds = Nat.ofDigits 256 ds := by
  induction ds with
  | nil => rfl
  | cons d ds ih => simp [natFromDigitsLsf, Nat.ofDigits_cons, ih.symm,
      natFromDigitsLsf]

/-- Digit codec round trip on naturals. -/
theorem natFromDigits_natToDigits (n : Nat) :
    natFromDigitsLsf (natToDigitsLsf n) = n := by
  rw [natToDigitsLsf_eq_digits, natFromDigitsLsf_eq_ofDigits,
    Nat.ofDigits_digits]

/-- The element-writing fold against the trace sink records exactly the
digits, in order, and never fails. -/
theorem foldlM_traceElements (ε : Type) (ds : List Nat) (s : List SerEvent) :
    List.foldlM
        (fun s e => (Except.ok (s ++ [SerEvent.element e]) : Except ε (List SerEvent)))
        s ds =
      Except.ok (s ++ ds.map SerEvent.element) := by
  induction ds generalizing s with
  | nil => simp [List.foldlM, exceptPure_eq_ok]
  | cons d ds ih => simp [List.foldlM, exceptBind_ok, ih]

/-- The full event trace of `Serialize for Integer`: begin with the digit
count, the digits as elements in order, then close. -/
theorem serialize_traceSerializer (ε : Type) (w : Integer) (s0 : List SerEvent) :
    w.serialize (traceSerializer ε) s0 =
      Except.ok (s0 ++ SerEvent.beginSeq (some (to_digits w.val).length) ::
        ((to_digits w.val).map SerEvent.element ++ [SerEvent.endSeq])) := by
  simp [Integer.serialize, traceSerializer, exceptBind_ok,
    foldlM_traceElements ε]

/-- The read loop consumes exactly the element prefix before the first
exhaustion signal, whatever follows that signal. -/
theorem visitSeqLoop_elems {ε : Type} (ds : List Nat)
    (rest : List (ReadStep ε)) (acc : List Nat) :
    visitSeqLoop (ds.map ReadStep.elem ++ ReadStep.exhausted :: rest) acc =
      Except.ok (acc ++ ds) := by
  induction ds generalizing acc with
  | nil => simp [visitSeqLoop]
  | cons d ds ih => simp [visitSeqLoop, ih]

/-- The read loop surfaces the first source error verbatim. -/
theorem visitSeqLoop_fail {ε : Type} (ds : List Nat) (e : ε)
    (rest : List (ReadStep ε)) (acc : List Nat) :
    visitSeqLoop (ds.map ReadStep.elem ++ ReadStep.fail e :: rest) acc =
      Except.error e := by
  induction ds generalizing acc with
  | nil => simp [visitSeqLoop]
  | cons d ds ih => simp [visitSeqLoop, ih]

/-- Only the element events of a pure-element block survive the digit
extraction of the transport. -/
theorem filterMap_digitOfEvent_elements (ds : List Nat) :
    (ds.map SerEvent.element).filterMap digitOfEvent = ds := by
  have hcomp : digitOfEvent ∘ SerEvent.element = some := rfl
  simp [List.filterMap_map, hcomp]

/-- The transported access of an encoded wrapper: hint is the digit count,
steps are the digits followed by exhaustion. -/
theorem eventsToAccess_Encode (w : Integer) :
    eventsToAccess (Encode w) =
      ⟨some (to_digits w.val).length,
        (to_digits w.val).map ReadStep.elem ++ [ReadStep.exhausted]⟩ := by
  have h := serialize_traceSerializer Empty w []
  have hcomp : digitOfEvent ∘ SerEvent.element = some := rfl
  simp only [Encode, h]
  simp [eventsToAccess, List.filterMap_append, List.filterMap_cons,
    digitOfEvent, List.filterMap_map, hcomp]

/-- Encoding then decoding yields the wrapper around the magnitude of the
original value. -/
theorem roundTrip_eq_natAbs (w : Integer) :
    roundTrip w = Except.ok ⟨(w.val.natAbs : Int)⟩ := by
  rw [roundTrip, eventsToAccess_Encode]
  simp [visit_seq, visitSeqLoop_elems, from_digits, to_digits,
    natFromDigits_natToDigits]

/-! ### Claims -/

/-- C1: for every non-negative arbitrary-precision integer `v`, the digit
codec round-trips, `from_digits (to_digits v) = v`, and serializing the
wrapper around `v` and deserializing the transported sequence yields the
original wrapper: `Decode (Encode (wrap v)) = wrap v`. -/
theorem C1_round_trip (v : Int) (h : 0 ≤ v) :
    from_digits (to_digits v) = v ∧ roundTrip ⟨v⟩ = Except.ok ⟨v⟩ := by
  have habs : (v.natAbs : Int) = v := by omega
  constructor
  · rw [from_digits, to_digits, natFromDigits_natToDigits, habs]
  · rw [roundTrip_eq_natAbs, habs]

theorem C1_round_trip_witness :
    (0 : Int) ≤ 300 ∧
      (from_digits (to_digits 300) = 300 ∧
        roundTrip ⟨300⟩ = Except.ok ⟨300⟩) :=
  ⟨by norm_num, C1_round_trip 300 (by norm_num)⟩

/-- C2: encoding the value 0 exports the empty digit sequence (the shortest
representation under the adopted convention), importing the empty sequence
yields exactly 0, and 0 round-trips to exactly 0 (also through a source that
immediately reports exhaustion). -/
theorem C2_zero_boundary :
    to_digits 0 = [] ∧ from_digits [] = 0 ∧
      roundTrip ⟨0⟩ = Except.ok ⟨0⟩ ∧
      visit_seq (⟨none, [ReadStep.exhausted]⟩ : SeqAccess Empty) =
        Except.ok ⟨0⟩ := by
  refine ⟨rfl, rfl, ?_, rfl⟩
  rw [roundTrip_eq_natAbs]
  rfl

/-- C3: for every negative value `v`, serializing the wrapper writes only
the magnitude (no sign information), so decoding the result yields the
wrapper around `|v| = -v`, which differs from the original wrapper. -/
theorem C3_negative_magnitude (v : Int) (h : v < 0) :
    roundTrip ⟨v⟩ = Except.ok ⟨-v⟩ ∧ Integer.mk (-v) ≠ Integer.mk v := by
  have habs : (v.natAbs : Int) = -v := by omega
  constructor
  · rw [roundTrip_eq_natAbs, habs]
  · intro hcontra
    have hval : -v = v := congrArg Integer.val hcontra
    omega

theorem C3_negative_magnitude_witness :
    (-5 : Int) < 0 ∧
      (roundTrip ⟨-5⟩ = Except.ok ⟨-(-5)⟩ ∧
        Integer.mk (-(-5)) ≠ Integer.mk (-5)) :=
  ⟨by norm_num, C3_negative_magnitude (-5) (by norm_num)⟩

/-- C4: the first structural error of the source is surfaced verbatim by
decode with no partial result, and any error reported by the sink at any of
the three encode stages (begin sequence, write element, end sequence) is
propagated unchanged by encode. -/
theorem C4_error_propagation :
    (∀ (ε : Type) (hint : Option Nat) (pre : List Nat) (e : ε)
        (rest : List (ReadStep ε)),
        visit_seq ⟨hint, pre.map ReadStep.elem ++ ReadStep.fail e :: rest⟩ =
          Except.error e) ∧
    (∀ (σ ε : Type) (sink : Serializer σ ε) (s0 : σ) (w : Integer) (e : ε),
        sink.serialize_seq s0 (some (to_digits w.val).length) =
            Except.error e →
          w.serialize sink s0 = Except.error e) ∧
    (∀ (σ ε : Type) (sink : Serializer σ ε) (s0 s1 : σ) (w : Integer) (e : ε),
        sink.serialize_seq s0 (some (to_digits w.val).length) =
            Except.ok s1 →
          (to_digits w.val).foldlM
              (fun s d => sink.serialize_element s d) s1 =
            Except.error e →
          w.serialize sink s0 = Except.error e) ∧
    (∀ (σ ε : Type) (sink : Serializer σ ε) (s0 s1 s2 : σ) (w : Integer)
        (e : ε),
        sink.serialize_seq s0 (some (to_digits w.val).length) =
            Except.ok s1 →
          (to_digits w.val).foldlM
              (fun s d => sink.serialize_element s d) s1 =
            Except.ok s2 →
          sink.seq_end s2 = Except.error e →
          w.serialize sink s0 = Except.error e) := by
  refine ⟨?_, ?_, ?_, ?_⟩
  · intro ε hint pre e rest
    simp [visit_seq, visitSeqLoop_fail]
  · intro σ ε sink s0 w e hseq
    simp only [Integer.serialize]
    rw [hseq, exceptBind_error]
  · intro σ ε sink s0 s1 w e hseq hfold
    simp only [Integer.serialize]
    rw [hseq, exceptBind_ok, hfold, exceptBind_error]
  · intro σ ε sink s0 s1 s2 w e hseq hfold hend
    simp only [Integer.serialize]
    rw [hseq, exceptBind_ok, hfold, exceptBind_ok, hend]

theorem C4_error_propagation_witness :
    (visit_seq (⟨some 2, [ReadStep.elem 5, ReadStep.fail 9, ReadStep.elem 2]⟩ :
        SeqAccess Nat) = Except.error 9) ∧
      (Integer.mk 5).serialize failSink () = Except.error 7 ∧
      (Integer.mk 5).serialize elemFailSink () = Except.error 3 ∧
      (Integer.mk 5).serialize endFailSink () = Except.error 11 :=
  ⟨C4_error_propagation.1 Nat (some 2) [5] 9 [ReadStep.elem 2],
    C4_error_propagation.2.1 Unit Nat failSink () ⟨5⟩ 7 rfl,
    C4_error_propagation.2.2.1 Unit Nat elemFailSink () () ⟨5⟩ 3 rfl rfl,
    C4_error_propagation.2.2.2 Unit Nat endFailSink () () () ⟨5⟩ 11
      rfl rfl rfl⟩

/-- C5: the exported digit sequence of any value carries no high-order zero
digit: it is empty, or its last (most significant) digit is positive. -/
theorem C5_no_high_order_zero (v : Int) :
    to_digits v = [] ∨
      ∃ d, (to_digits v).getLast? = some d ∧ 0 < d := by
  rw [to_digits, natToDigitsLsf_eq_digits]
  rcases Nat.eq_zero_or_pos v.natAbs with h0 | hpos
  · left
    simp [h0]
  · right
    have hne : Nat.digits 256 v.natAbs ≠ [] :=
      Nat.digits_ne_nil_iff_ne_zero.mpr (Nat.pos_iff_ne_zero.mp hpos)
    refine ⟨(Nat.digits 256 v.natAbs).getLast hne, ?_, ?_⟩
    · exact List.getLast?_eq_getLast _ hne
    · exact Nat.pos_of_ne_zero
        (Nat.getLast_digit_ne_zero 256 (Nat.pos_iff_ne_zero.mp hpos))

/-- C6: on encode, the sink receives exactly: begin-sequence with known
length equal to the digit count of the value, then each digit as an
individual element in least-significant-first order, then end-sequence. -/
theorem C6_encode_protocol (ε : Type) (w : Integer) :
    w.serialize (traceSerializer ε) [] =
      Except.ok (SerEvent.beginSeq (some (to_digits w.val).length) ::
        ((to_digits w.val).map SerEvent.element ++ [SerEvent.endSeq])) := by
  have h := serialize_traceSerializer ε w []
  simpa using h

/-- C7: the decoded value does not depend on the advertised size hint (it
only seeds the buffer capacity), the loop terminates exactly at the source's
explicit exhaustion signal, and a stream whose element count differs from
the hint is not rejected. -/
theorem C7_hint_is_advisory :
    (∀ (ε : Type) (h1 h2 : Option Nat) (steps : List (ReadStep ε)),
        visit_seq ⟨h1, steps⟩ = visit_seq ⟨h2, steps⟩) ∧
    (∀ (ε : Type) (hint : Option Nat) (ds : List Nat)
        (rest : List (ReadStep ε)),
        visit_seq ⟨hint, ds.map ReadStep.elem ++ ReadStep.exhausted :: rest⟩ =
          Except.ok ⟨from_digits ds⟩) := by
  constructor
  · intro ε h1 h2 steps
    rfl
  · intro ε hint ds rest
    simp [visit_seq, visitSeqLoop_elems]

/-- C8 counterexample: for the negative original value `-1`, decoding the
encoded bytes yields the wrapper around `1`, not the original wrapper, so
decoded reconstructions are not equal to the originally encoded value. -/
theorem C8_counterexample_negative :
    roundTrip ⟨-1⟩ = Except.ok ⟨1⟩ ∧ Integer.mk 1 ≠ Integer.mk (-1) := by
  constructor
  · rfl
  · intro hcontra
    have hval : (1 : Int) = -1 := congrArg Integer.val hcontra
    omega

/-- C8 (amended): decoding is deterministic — two decode runs over the same
encoded sequence agree — and for every non-negative original value both
equal the originally encoded wrapper. -/
theorem C8_deterministic_decode (v : Int) (h : 0 ≤ v) :
    roundTrip ⟨v⟩ = roundTrip ⟨v⟩ ∧ roundTrip ⟨v⟩ = Except.ok ⟨v⟩ := by
  have habs : (v.natAbs : Int) = v := by omega
  exact ⟨rfl, by rw [roundTrip_eq_natAbs, habs]⟩

theorem C8_deterministic_decode_witness :
    (0 : Int) ≤ 42 ∧
      (roundTrip ⟨42⟩ = roundTrip ⟨42⟩ ∧
        roundTrip ⟨42⟩ = Except.ok ⟨42⟩) :=
  ⟨by norm_num, C8_deterministic_decode 42 (by norm_num)⟩

/-- C9: the wrapper newtype preserves identity and equality — unwrapping
the wrapped value returns it unchanged, and two wrappers are equal exactly
when the wrapped values are equal. -/
theorem C9_wrapper_preserves_equality :
    (∀ v : Int, (Integer.fromRug v).intoRug = v) ∧
    (∀ a b : Int, Integer.fromRug a = Integer.fromRug b ↔ a = b) := by
  constructor
  · intro v
    rfl
  · intro a b
    constructor
    · intro h
      exact congrArg Integer.val h
    · intro h
      rw [h]

theorem C9_wrapper_preserves_equality_witness :
    (Integer.fromRug 7).intoRug = 7 ∧
      (Integer.fromRug 3 = Integer.fromRug 4 ↔ (3 : Int) = 4) :=
  ⟨C9_wrapper_preserves_equality.1 7,
    C9_wrapper_preserves_equality.2 3 4⟩

/-- C10: import accepts non-canonical digit sequences — appending a
high-order zero digit never changes the imported value (also through the
full decoder), so distinct sequences can decode to equal values. -/
theorem C10_non_canonical_accepted :
    (∀ ds : List Nat, from_digits (ds ++ [0]) = from_digits ds) ∧
    (∀ (hint : Option Nat) (ds : List Nat),
        visit_seq (⟨hint, (ds ++ [0]).map ReadStep.elem ++
            [ReadStep.exhausted]⟩ : SeqAccess Empty) =
          visit_seq ⟨hint, ds.map ReadStep.elem ++ [ReadStep.exhausted]⟩) ∧
    (∃ s t : List Nat, s ≠ t ∧ from_digits s = from_digits t) := by
  have key : ∀ ds : List Nat, from_digits (ds ++ [0]) = from_digits ds := by
    intro ds
    simp [from_digits, natFromDigitsLsf, List.foldr_append]
  refine ⟨key, ?_, [0], [], by simp, key []⟩
  intro hint ds
  simp only [visit_seq]
  rw [visitSeqLoop_elems, visitSeqLoop_elems]
  simp [key]

end RugBinserial
